import Mathlib

/-!
Verification of the SigMF archive packer/unpacker.

Shallow embedding of `src/sigmf/archive.py` (class `SigMFArchive`, whose
`__init__` performs packing, and the free function `extract`).

Modelling conventions:
* Machine strings are Lean `String`s; `str.endswith` and `"." in path` are
  modelled on `String.data` (`strEndsWith`, `strHasChar`).
* The external metadata collaborator (`sigmffile.py`, not part of the packer
  source) is modelled from the spec's collaborator interface: a recording
  handle exposes `name`, `data_file`, `validate() -> bool`, and
  `dump(writer)` which writes a UTF-8 JSON text of its metadata document.
* A parsed JSON document is modelled as a flat association list
  (`Json := List (String × Int)`); the claims never inspect document
  structure, only equality and parse failure.
* File contents are modelled at the granularity the claims need:
  `FileContent.jsonText d` stands for a UTF-8 text that `json.load` parses
  to document `d` (what `dump` writes); `FileContent.rawBytes bs` stands
  for bytes that do not parse as JSON (datasets, malformed metadata).
* Exceptions are modelled as `Except` with an error-kind enumeration;
  messages are abstracted away.
* Filesystem side effects are recorded in an explicit event trace, so that
  ordering properties ("the destination is not even opened before all
  checks pass", "the staging directory is removed", "the handle is
  closed") are statable.
-/

namespace SigMF

/-- `SIGMF_ARCHIVE_EXT` from `archive.py`. -/
def SIGMF_ARCHIVE_EXT : String := ".sigmf"

/-- `SIGMF_METADATA_EXT` from `archive.py`. -/
def SIGMF_METADATA_EXT : String := ".sigmf-meta"

/-- `SIGMF_DATASET_EXT` from `archive.py`. -/
def SIGMF_DATASET_EXT : String := ".sigmf-data"

/-- Shallow model of a parsed JSON metadata document (flat association
list of key/value pairs); the archive code treats documents opaquely. -/
abbrev Json := List (String × Int)

/-- Content of one file, at the granularity the archive code observes:
a UTF-8 text that parses as the JSON document `doc`, or raw bytes that do
not parse as JSON (datasets, malformed metadata files). -/
inductive FileContent where
  | jsonText (doc : Json)
  | rawBytes (bs : List Nat)
deriving DecidableEq, Repr

/-- Kind of a tar member: directory or regular file. -/
inductive EntryKind where
  | dir
  | file
deriving DecidableEq, Repr

/-- One tar member (`tarfile.TarInfo` plus its stored bytes): archive
path, kind, permission mode and content. -/
structure TarEntry where
  name : String
  kind : EntryKind
  mode : Nat
  content : FileContent
deriving DecidableEq, Repr

/-- Error kinds raised by the archive code.  `fileError` is
`error.SigMFFileError`, `validationError` is `error.SigMFValidationError`,
`formatError` models `json.JSONDecodeError` (the extract-time parse
failure the spec calls FormatError), `readError` models
`tarfile.ReadError`, `ioError` models a raw `OSError` from a filesystem
operation (e.g. `shutil.copy` on a missing file), and `attributeError`
models the `AttributeError` from feeding `None` to the JSON reader. -/
inductive Err where
  | fileError
  | validationError
  | formatError
  | readError
  | ioError
  | attributeError
deriving DecidableEq, Repr

/-- Observable filesystem / handle events, in the order the code performs
them.  Staging directories are identified by the index of the recording
the loop is processing. -/
inductive Event where
  | openPathWrite (p : String)
  | probeSink
  | mkdtemp (i : Nat)
  | writeMeta (i : Nat)
  | copyData (i : Nat)
  | addEntries (i : Nat)
  | rmtree (i : Nat)
  | closeArchive
  | closeOutput
  | seekStart
  | openRead
  | extractAll (d : String)
  | closeRead
deriving DecidableEq, Repr

/-- Modelled from the spec: the recording handle owned by the external
metadata component (`sigmffile.py` is not part of the packer source).
The spec's collaborator interface: `name : string` (read), `data_file :
path | null` (read), `validate() -> bool`, and `dump` which writes the
pretty-printed UTF-8 JSON text of the `metadata` document.  `name = ""`
models an unset name (Python falsiness); `data_file = none` models an
unset data file. -/
structure SigMFFile where
  name : String
  metadata : Json
  data_file : Option String
  valid : Bool
deriving DecidableEq, Repr

/-- The host filesystem the packer reads from and writes to: readable
files (path to bytes) and the set of paths `open(path, "wb")` fails on. -/
structure FS where
  files : List (String × List Nat)
  unwritable : List String
deriving DecidableEq, Repr

/-- Read a file's bytes from the filesystem. -/
def fsRead (fs : FS) (p : String) : Option (List Nat) :=
  fs.files.lookup p

/-- A caller-supplied byte sink (`fileobj` argument): its optional `name`
attribute (used by `tarfile` for the archive name), its current content
(`some es` when readable as a tar holding entries `es`, `none` when not a
tar, in which case append mode raises `tarfile.ReadError` and the code
reopens in write mode), and whether it is byte-writable. -/
structure Fileobj where
  name : Option String
  content : Option (List TarEntry)
  writable : Bool
deriving DecidableEq, Repr

/-- The `sigmffiles` argument: either a single non-iterable `SigMFFile`
or an iterable of them (`isinstance(sigmffiles, collections.Iterable)`). -/
inductive SigMFInput where
  | single (sf : SigMFFile)
  | many (sfs : List SigMFFile)
deriving DecidableEq, Repr

/-- `isinstance` branch of `SigMFArchive.__init__`: a non-iterable
argument is wrapped into a one-element list. -/
def normalize_input : SigMFInput → List SigMFFile
  | .single sf => [sf]
  | .many sfs => sfs

/-- Python `s.endswith(t)`, on the character list of the string. -/
def strEndsWith (s t : String) : Bool :=
  t.data.isSuffixOf s.data

/-- Python `c in s` for a single character `c` (`"." in path`). -/
def strHasChar (s : String) (c : Char) : Bool :=
  s.data.contains c

/-- `os.path.join(d, n)` for a non-empty `d` without trailing slash and a
relative `n`, the only shapes the archive code produces. -/
def pathJoin (d n : String) : String :=
  d ++ "/" ++ n

/-- Python falsiness of an optional string (`None` or `""`). -/
def falsyStr : Option String → Bool
  | none => true
  | some s => s = ""

/-- `SigMFArchive._ensure_sigmffile_name_set`. -/
def ensure_sigmffile_name_set (sf : SigMFFile) : Except Err Unit :=
  if sf.name = "" then .error .fileError else .ok ()

/-- `SigMFArchive._ensure_sigmffile_data_file_set`. -/
def ensure_sigmffile_data_file_set (sf : SigMFFile) : Except Err Unit :=
  if falsyStr sf.data_file then .error .fileError else .ok ()

/-- `SigMFArchive._validate_sigmffile_metadata`. -/
def validate_sigmffile_metadata (sf : SigMFFile) : Except Err Unit :=
  if sf.valid then .ok () else .error .validationError

/-- `SigMFArchive._ensure_path_has_correct_extension`: no path passes;
a path containing a dot but not ending in `.sigmf` is a `SigMFFileError`;
otherwise `.sigmf` is appended unless already present. -/
def ensure_path_has_correct_extension (path : Option String) :
    Except Err (Option String) :=
  match path with
  | none => .ok none
  | some p =>
    let has_extension := strHasChar p '.'
    let has_correct_extension := strEndsWith p SIGMF_ARCHIVE_EXT
    if has_extension && !has_correct_extension then
      .error .fileError
    else
      .ok (some (if has_correct_extension then p else p ++ SIGMF_ARCHIVE_EXT))

/-- The three per-handle checks of `SigMFArchive._check_input`, in source
order: name set, data file set, metadata valid. -/
def check_sigmffile (sf : SigMFFile) : Except Err Unit := do
  ensure_sigmffile_name_set sf
  ensure_sigmffile_data_file_set sf
  validate_sigmffile_metadata sf

/-- The `for sf in self.sigmffiles` loop of `_check_input`. -/
def check_files : List SigMFFile → Except Err Unit
  | [] => .ok ()
  | sf :: rest => do
    check_sigmffile sf
    check_files rest

/-- `SigMFArchive._check_input`: path-extension check first, then the
per-handle checks in order; returns the resolved path. -/
def check_input (path : Option String) (sfs : List SigMFFile) :
    Except Err (Option String) := do
  let resolved ← ensure_path_has_correct_extension path
  check_files sfs
  pure resolved

/-- The `chmod` filter passed to `tarfile.add`: directories get mode
`0o755`, everything else `0o644`. -/
def chmod (e : TarEntry) : TarEntry :=
  match e.kind with
  | .dir => { e with mode := 0o755 }
  | .file => { e with mode := 0o644 }

/-- The staged entries `tarfile.add(tmpdir, arcname=sf.name)` walks for
one recording, before the `chmod` filter: the staging directory (archived
as `sf.name`, carrying whatever mode the host gave it), the metadata file
written by `dump` and the copied dataset file.  The order of the two
files under the directory is the directory listing order; the model fixes
it to creation order (metadata first, then dataset); `extract`'s pairing
is insensitive to this choice. -/
def staged_entries (sf : SigMFFile) (bytes : List Nat)
    (hostDirMode hostFileMode : Nat) : List TarEntry :=
  [ ⟨sf.name, .dir, hostDirMode, .rawBytes []⟩,
    ⟨pathJoin sf.name (sf.name ++ SIGMF_METADATA_EXT), .file, hostFileMode,
      .jsonText sf.metadata⟩,
    ⟨pathJoin sf.name (sf.name ++ SIGMF_DATASET_EXT), .file, hostFileMode,
      .rawBytes bytes⟩ ]

/-- `sigmf_archive.add(tmpdir, arcname=sf.name, filter=chmod)`: the staged
entries with the `chmod` filter applied to each. -/
def add_recording (sf : SigMFFile) (bytes : List Nat)
    (hostDirMode hostFileMode : Nat) : List TarEntry :=
  (staged_entries sf bytes hostDirMode hostFileMode).map chmod

/-- The `for sigmffile in self.sigmffiles` loop of `__init__`: for each
recording create a staging directory, dump the metadata, copy the dataset
(`shutil.copy` raises if `data_file` is unreadable; the exception
propagates, so no further events occur — in particular no `rmtree`), add
the staged tree to the archive, and remove the staging directory.  `i`
numbers the staging directories. -/
def pack_loop (fs : FS) (hostDirMode hostFileMode : Nat) :
    Nat → List SigMFFile → List Event × Except Err (List TarEntry)
  | _, [] => ([], .ok [])
  | i, sf :: rest =>
    match fsRead fs (sf.data_file.getD "") with
    | none => ([.mkdtemp i, .writeMeta i], .error .ioError)
    | some bytes =>
      let (evs, res) := pack_loop fs hostDirMode hostFileMode (i + 1) rest
      ([.mkdtemp i, .writeMeta i, .copyData i, .addEntries i, .rmtree i] ++ evs,
        match res with
        | .error e => .error e
        | .ok es => .ok (add_recording sf bytes hostDirMode hostFileMode ++ es))

/-- Result of a successful pack: the final `self.path`
(`sigmf_archive.name`) and the entries of the produced container. -/
structure PackResult where
  path : Option String
  entries : List TarEntry
deriving DecidableEq, Repr

/-- Finalization for the path destination: the path was opened for
writing before the loop; on loop success the archive and the output file
are closed (`sigmf_archive.close()`, `sigmf_fileobj.close()`) and
`self.path` becomes the archive name, i.e. the resolved path; a loop
error propagates out of `__init__` with no further events. -/
def finish_path (p : String) :
    List Event × Except Err (List TarEntry) → List Event × Except Err PackResult
  | (evs, .error e) => (.openPathWrite p :: evs, .error e)
  | (evs, .ok es) =>
    (.openPathWrite p :: (evs ++ [.closeArchive, .closeOutput]),
      .ok ⟨some p, es⟩)

/-- Finalization for the sink destination: the sink was probed with an
empty write before the loop; the container holds the sink's prior entries
(append mode) followed by the new ones; on loop success the archive is
closed and the sink is rewound (`seek(0)`), never closed, and
`self.path` becomes the archive name, i.e. the sink's `name`
attribute. -/
def finish_sink (fo : Fileobj) :
    List Event × Except Err (List TarEntry) → List Event × Except Err PackResult
  | (evs, .error e) => (.probeSink :: evs, .error e)
  | (evs, .ok es) =>
    (.probeSink :: (evs ++ [.closeArchive, .seekStart]),
      .ok ⟨fo.name, fo.content.getD [] ++ es⟩)

/-- `SigMFArchive.__init__` — the packer.  Arguments: the `sigmffiles`
argument, the `path` and `fileobj` arguments, the host filesystem, and
the host modes staged entries carry before the `chmod` filter (these
depend on the process umask).  Returns the event trace and either an
error or the final path plus container entries.  Mirrors the source
order: input checks first, then destination opening (`fileobj` takes
precedence; a sink that is not byte-writable and a missing path are
re-raised as `SigMFFileError`; a non-tar sink makes append mode retry as
a fresh write, handled in `finish_sink`), then the per-recording loop,
then close/seek. -/
def SigMFArchive (input : SigMFInput) (path : Option String)
    (fileobj : Option Fileobj) (fs : FS) (hostDirMode hostFileMode : Nat) :
    List Event × Except Err PackResult :=
  let sigmffiles := normalize_input input
  match check_input path sigmffiles with
  | .error e => ([], .error e)
  | .ok resolved =>
    match fileobj with
    | some fo =>
      -- _get_output_fileobj: fileobj.write(bytes()) probes writability
      if !fo.writable then ([], .error .fileError)
      else finish_sink fo (pack_loop fs hostDirMode hostFileMode 0 sigmffiles)
    | none =>
      match resolved with
      | none =>
        -- open(None, "wb") raises; re-raised as SigMFFileError
        ([], .error .fileError)
      | some p =>
        if fs.unwritable.contains p then ([], .error .fileError)
        else finish_path p (pack_loop fs hostDirMode hostFileMode 0 sigmffiles)

/-- Modelled from the spec: the recording handle `extract` constructs —
"Construction from (metadata: parsed JSON, data_file: path) ->
RecordingHandle" (`SigMFFile(metadata=metadata, data_file=data_file)`;
`sigmffile.py` is not part of the packer source). -/
structure ExtractedRecording where
  metadata : Json
  data_file : String
deriving DecidableEq, Repr

/-- Modelled from the spec: `json.load` over a UTF-8 reader — "Metadata
entries are parsed as UTF-8 JSON; malformed JSON signals FormatError".
`jsonText doc` stands for exactly the texts parsing to `doc`; `rawBytes`
for bytes that do not parse. -/
def jsonLoad : FileContent → Option Json
  | .jsonText doc => some doc
  | .rawBytes _ => none

/-- `archive.extractfile(member)`: content stream for a regular file,
`None` for a directory member. -/
def extractfile (e : TarEntry) : Option FileContent :=
  match e.kind with
  | .file => some e.content
  | .dir => none

/-- One iteration of `extract`'s member loop, before the pairing check:
a dataset-suffixed name updates the current data file, a
metadata-suffixed name is read back through `extractfile` and parsed
(`None` from a directory member makes `json.load` raise
`AttributeError`; unparseable bytes raise the decode error), any other
name leaves the trackers unchanged. -/
def scan_classify (dir : String) (data_file : Option String)
    (metadata : Option Json) (m : TarEntry) :
    Except Err (Option String × Option Json) :=
  if strEndsWith m.name SIGMF_DATASET_EXT then
    .ok (some (pathJoin dir m.name), metadata)
  else if strEndsWith m.name SIGMF_METADATA_EXT then
    match extractfile m with
    | none => .error .attributeError
    | some c =>
      match jsonLoad c with
      | none => .error .formatError
      | some j => .ok (data_file, some j)
  else
    .ok (data_file, metadata)

/-- The `for member in members` loop of `extract`: scan the members in
order tracking the current data file and metadata; whenever both are
set, construct one recording, append it, and reset both trackers. -/
def scan_members (dir : String) :
    List TarEntry → Option String → Option Json →
    Except Err (List ExtractedRecording)
  | [], _, _ => .ok []
  | m :: rest, data_file, metadata =>
    match scan_classify dir data_file metadata m with
    | .error e => .error e
    | .ok (df, md) =>
      match df, md with
      | some d, some j =>
        match scan_members dir rest none none with
        | .error e => .error e
        | .ok recs => .ok (⟨j, d⟩ :: recs)
      | df, md => scan_members dir rest df md

/-- The container file handed to `extract`: not a tar at all
(`tarfile.open` raises), or a tar whose member list is readable
(`truncated = false`) or raises `tarfile.ReadError` during
`getmembers()` (`truncated = true`, e.g. a truncated archive whose
first header is intact). -/
inductive TarBlob where
  | notATar
  | tar (entries : List TarEntry) (truncated : Bool)
deriving DecidableEq, Repr

/-- `if not dir: dir = tempfile.mkdtemp()`: a missing (or falsy, i.e.
empty) `dir` argument is replaced by a fresh temporary directory,
modelled with a fixed fresh name. -/
def resolve_dir : Option String → String
  | none => "/tmp/extract0"
  | some s => if s = "" then "/tmp/extract0" else s

/-- `extract(archive_path, dir=None)`.  `getmembers` runs between
`tarfile.open` and the `try` block, so a `truncated` tar leaves the
handle unclosed; errors inside the `try` (the member scan) reach the
`finally` and close the handle. -/
def extract (blob : TarBlob) (dirArg : Option String) :
    List Event × Except Err (List ExtractedRecording) :=
  let dir := resolve_dir dirArg
  match blob with
  | .notATar => ([], .error .readError)
  | .tar entries truncated =>
    if truncated then ([.openRead], .error .readError)
    else
      match scan_members dir entries none none with
      | .error e => ([.openRead, .extractAll dir, .closeRead], .error e)
      | .ok recs => ([.openRead, .extractAll dir, .closeRead], .ok recs)

/-- `archive.extractall(path=dir)`: the files materialized on disk, as
(path, content) writes performed in member order; a later write to the
same path overwrites an earlier one. -/
def extractall_fs (dir : String) (entries : List TarEntry) :
    List (String × FileContent) :=
  entries.map (fun e => (pathJoin dir e.name, e.content))

/-- Reading path `p` from the write sequence `l`: the last write wins. -/
def fs_last_lookup (l : List (String × FileContent)) (p : String) :
    Option FileContent :=
  l.foldl (fun acc q => if q.1 = p then some q.2 else acc) none

/-- Modelled from the spec (§4.2 step 4, the words of the pairing
description, for comparison with the implementation's member loop):
"scan the enumerated entries in order, tracking current data file and
current metadata as they are encountered; whenever both a
dataset-suffixed and a metadata-suffixed entry have been seen since the
last pairing, construct one recording handle from the parsed metadata and
the dataset path, append it to the result, and reset both trackers",
with "Metadata entries are parsed as UTF-8 JSON; malformed JSON signals
FormatError". -/
def spec_pairing (dir : String) :
    List TarEntry → Option String → Option Json →
    Except Err (List ExtractedRecording)
  | [], _, _ => .ok []
  | m :: rest, data_file, metadata =>
    let step : Except Err (Option String × Option Json) :=
      if strEndsWith m.name SIGMF_DATASET_EXT then
        .ok (some (pathJoin dir m.name), metadata)
      else if strEndsWith m.name SIGMF_METADATA_EXT then
        match jsonLoad m.content with
        | none => .error .formatError
        | some j => .ok (data_file, some j)
      else
        .ok (data_file, metadata)
    match step with
    | .error e => .error e
    | .ok (df, md) =>
      match df, md with
      | some d, some j =>
        match spec_pairing dir rest none none with
        | .error e => .error e
        | .ok recs => .ok (⟨j, d⟩ :: recs)
      | df, md => spec_pairing dir rest df md

/-- A handle the packer's pre-flight checks accept and whose data file is
readable on the host (the spec's archivability invariant: `name` set,
`data_file` set and pointing at an existing readable file, metadata
valid). -/
def archivable (fs : FS) (sf : SigMFFile) : Bool :=
  !(sf.name == "")
    && !(falsyStr sf.data_file)
    && (fsRead fs (sf.data_file.getD "")).isSome
    && sf.valid

/-- A recording name fit for the container layout: no path separator (the
spec's "no path separators allowed in `name`") and not itself ending in
one of the two reserved member suffixes (a name ending in a reserved
suffix makes the extractor misclassify the recording's directory
member). -/
def good_name (sf : SigMFFile) : Bool :=
  !(strHasChar sf.name '/')
    && !(strEndsWith sf.name SIGMF_DATASET_EXT)
    && !(strEndsWith sf.name SIGMF_METADATA_EXT)

/-- The dataset bytes the packer copies for a handle. -/
def rec_bytes (fs : FS) (sf : SigMFFile) : List Nat :=
  (fsRead fs (sf.data_file.getD "")).getD []

/-- The container entries a successful pack of `sfs` produces. -/
def packed_container (fs : FS) (hdm hfm : Nat) : List SigMFFile → List TarEntry
  | [] => []
  | sf :: rest =>
    add_recording sf (rec_bytes fs sf) hdm hfm ++ packed_container fs hdm hfm rest

/-- The recording handles extraction of a packed container yields: one
per input handle, in order, carrying the same metadata document and a
dataset path under the directory named after the handle. -/
def extracted_records (dir : String) (sfs : List SigMFFile) :
    List ExtractedRecording :=
  sfs.map (fun sf =>
    ⟨sf.metadata, pathJoin dir (pathJoin sf.name (sf.name ++ SIGMF_DATASET_EXT))⟩)

/-- Two archivable handles sharing the name "a" with different dataset
files: the duplicate-name instance the round-trip claim fails on. -/
def c1ex_sfs : List SigMFFile :=
  [⟨"a", [("k", 1)], some "d1", true⟩, ⟨"a", [("k", 2)], some "d2", true⟩]

/-- Host filesystem for the duplicate-name instance: the two dataset
files hold different bytes. -/
def c1ex_fs : FS := ⟨[("d1", [0]), ("d2", [1])], []⟩

/-- The container the duplicate-name instance packs to. -/
def c1ex_entries : List TarEntry := packed_container c1ex_fs 7 6 c1ex_sfs

/-! ## String-level helper lemmas -/

theorem str_eq_iff_data {s t : String} : s = t ↔ s.data = t.data :=
  String.ext_iff

theorem str_append_left_cancel {s t u : String} (h : s ++ t = s ++ u) :
    t = u := by
  rw [str_eq_iff_data] at h ⊢
  simpa using List.append_cancel_left h

theorem strHasChar_iff {s : String} {c : Char} :
    strHasChar s c = true ↔ c ∈ s.data := by
  simp [strHasChar, List.contains, List.elem_iff]

theorem strHasChar_append (s t : String) (c : Char) :
    strHasChar (s ++ t) c = (strHasChar s c || strHasChar t c) := by
  rw [Bool.eq_iff_iff]
  simp only [Bool.or_eq_true, strHasChar_iff, String.data_append,
    List.mem_append]

theorem strEndsWith_append (s t : String) : strEndsWith (s ++ t) t = true := by
  simp [strEndsWith]

/-- Lists that agree and put the marker `c` outside both prefixes split
identically at the first occurrence of `c`. -/
theorem split_at_marker {c : Char} :
    ∀ (la lb lu lv : List Char), c ∉ la → c ∉ lb →
      la ++ c :: lu = lb ++ c :: lv → la = lb ∧ lu = lv := by
  intro la
  induction la with
  | nil =>
    intro lb lu lv _ hb h
    cases lb with
    | nil => simpa using h
    | cons x xs =>
      simp only [List.nil_append, List.cons_append, List.cons.injEq] at h
      exact absurd (h.1 ▸ List.mem_cons_self x xs) hb
  | cons a as ih =>
    intro lb lu lv ha hb h
    cases lb with
    | nil =>
      simp only [List.cons_append, List.nil_append, List.cons.injEq] at h
      exact absurd (h.1.symm ▸ List.mem_cons_self a as) ha
    | cons x xs =>
      simp only [List.cons_append, List.cons.injEq] at h
      have ha' : c ∉ as := fun hm => ha (List.mem_cons_of_mem a hm)
      have hb' : c ∉ xs := fun hm => hb (List.mem_cons_of_mem x hm)
      obtain ⟨h1, h2⟩ := ih xs lu lv ha' hb' h.2
      exact ⟨by rw [h.1, h1], h2⟩

/-- Strings built as `a ++ "/" ++ u` with slash-free `a` are uniquely
decomposed. -/
theorem slash_split {a b u v : String}
    (ha : strHasChar a '/' = false) (hb : strHasChar b '/' = false)
    (h : a ++ "/" ++ u = b ++ "/" ++ v) : a = b ∧ u = v := by
  have ha' : '/' ∉ a.data := by
    intro hm
    have := strHasChar_iff.mpr hm
    simp [ha] at this
  have hb' : '/' ∉ b.data := by
    intro hm
    have := strHasChar_iff.mpr hm
    simp [hb] at this
  rw [str_eq_iff_data] at h
  simp only [String.data_append] at h
  have h' : a.data ++ '/' :: u.data = b.data ++ '/' :: v.data := by
    simpa using h
  obtain ⟨h1, h2⟩ := split_at_marker a.data b.data u.data v.data ha' hb' h'
  exact ⟨String.ext h1, String.ext h2⟩

/-- Two suffixes of the same string with the same length are equal. -/
theorem ends_with_unique {s t₁ t₂ : String}
    (h₁ : strEndsWith s t₁ = true) (h₂ : strEndsWith s t₂ = true)
    (hl : t₁.data.length = t₂.data.length) : t₁ = t₂ := by
  simp only [strEndsWith, List.isSuffixOf_iff_suffix] at h₁ h₂
  obtain ⟨w₁, hw₁⟩ := h₁
  obtain ⟨w₂, hw₂⟩ := h₂
  have h := hw₁.trans hw₂.symm
  exact String.ext (List.append_inj' h hl).2

/-- A string ending in the metadata suffix does not end in the dataset
suffix. -/
theorem ends_meta_not_data {s : String}
    (h : strEndsWith s SIGMF_METADATA_EXT = true) :
    strEndsWith s SIGMF_DATASET_EXT = false := by
  by_contra hd
  have hd' : strEndsWith s SIGMF_DATASET_EXT = true := by
    revert hd; cases strEndsWith s SIGMF_DATASET_EXT <;> simp
  have := ends_with_unique h hd' (by decide)
  exact absurd this (by decide)

/-- A string ending in the dataset suffix does not end in the metadata
suffix. -/
theorem ends_data_not_meta {s : String}
    (h : strEndsWith s SIGMF_DATASET_EXT = true) :
    strEndsWith s SIGMF_METADATA_EXT = false := by
  by_contra hm
  have hm' : strEndsWith s SIGMF_METADATA_EXT = true := by
    revert hm; cases strEndsWith s SIGMF_METADATA_EXT <;> simp
  have := ends_with_unique hm' h (by decide)
  exact absurd this (by decide)

/-! ## Entry-path distinctness lemmas -/

theorem pathJoin_inj {d s t : String} (h : pathJoin d s = pathJoin d t) :
    s = t :=
  str_append_left_cancel (s := d ++ "/") h

theorem pathJoin_hasSlash (b u : String) :
    strHasChar (pathJoin b u) '/' = true := by
  show strHasChar (b ++ "/" ++ u) '/' = true
  rw [strHasChar_append, strHasChar_append]
  have h : strHasChar "/" '/' = true := by decide
  simp [h]

/-- A slash-free string is never a joined path. -/
theorem bare_ne_joined {a b u : String} (ha : strHasChar a '/' = false) :
    a ≠ pathJoin b u := by
  intro h
  rw [h, pathJoin_hasSlash] at ha
  exact Bool.noConfusion ha

/-- A metadata member path never equals a dataset member path, for
slash-free recording names. -/
theorem meta_path_ne_data_path {a b : String}
    (ha : strHasChar a '/' = false) (hb : strHasChar b '/' = false) :
    pathJoin a (a ++ SIGMF_METADATA_EXT) ≠ pathJoin b (b ++ SIGMF_DATASET_EXT) := by
  intro h
  obtain ⟨_, h2⟩ := slash_split ha hb h
  have : SIGMF_METADATA_EXT = SIGMF_DATASET_EXT := by
    apply str_append_left_cancel (s := a)
    rw [h2]
    obtain ⟨h1, _⟩ := slash_split ha hb h
    rw [h1]
  exact absurd this (by decide)

/-- Dataset member paths of slash-free names determine the name. -/
theorem data_path_inj {a b : String}
    (ha : strHasChar a '/' = false) (hb : strHasChar b '/' = false)
    (h : pathJoin a (a ++ SIGMF_DATASET_EXT) = pathJoin b (b ++ SIGMF_DATASET_EXT)) :
    a = b :=
  (slash_split ha hb h).1

theorem chmod_dir_mk (n : String) (m : Nat) (c : FileContent) :
    chmod ⟨n, .dir, m, c⟩ = ⟨n, .dir, 0o755, c⟩ := rfl

theorem chmod_file_mk (n : String) (m : Nat) (c : FileContent) :
    chmod ⟨n, .file, m, c⟩ = ⟨n, .file, 0o644, c⟩ := rfl

/-- `add_recording` spelled out: the directory member, the metadata
member and the dataset member, with the `chmod` modes. -/
theorem add_recording_eq (sf : SigMFFile) (bytes : List Nat) (hdm hfm : Nat) :
    add_recording sf bytes hdm hfm =
      [ ⟨sf.name, .dir, 0o755, .rawBytes []⟩,
        ⟨pathJoin sf.name (sf.name ++ SIGMF_METADATA_EXT), .file, 0o644,
          .jsonText sf.metadata⟩,
        ⟨pathJoin sf.name (sf.name ++ SIGMF_DATASET_EXT), .file, 0o644,
          .rawBytes bytes⟩ ] := rfl

/-! ## Pre-flight check lemmas -/

theorem check_sigmffile_ok_of_archivable {fs : FS} {sf : SigMFFile}
    (h : archivable fs sf = true) : check_sigmffile sf = .ok () := by
  simp only [archivable, Bool.and_eq_true, Bool.not_eq_true', beq_eq_false_iff_ne,
    ne_eq] at h
  obtain ⟨⟨⟨hname, hdata⟩, _⟩, hvalid⟩ := h
  simp [check_sigmffile, ensure_sigmffile_name_set, ensure_sigmffile_data_file_set,
    validate_sigmffile_metadata, hname, hdata, hvalid, Bind.bind, Except.bind]

theorem check_files_ok {sfs : List SigMFFile}
    (h : ∀ sf ∈ sfs, check_sigmffile sf = .ok ()) :
    check_files sfs = .ok () := by
  induction sfs with
  | nil => rfl
  | cons sf rest ih =>
    have h1 := h sf (List.mem_cons_self sf rest)
    have h2 := ih (fun x hx => h x (List.mem_cons_of_mem sf hx))
    simp [check_files, h1, h2, Bind.bind, Except.bind]

theorem check_files_error {pre post : List SigMFFile} {sf : SigMFFile} {e : Err}
    (hpre : ∀ x ∈ pre, check_sigmffile x = .ok ())
    (hsf : check_sigmffile sf = .error e) :
    check_files (pre ++ sf :: post) = .error e := by
  induction pre with
  | nil => simp [check_files, hsf, Bind.bind, Except.bind]
  | cons x xs ih =>
    have h1 := hpre x (List.mem_cons_self x xs)
    have h2 := ih (fun y hy => hpre y (List.mem_cons_of_mem x hy))
    simp [check_files, h1, h2, Bind.bind, Except.bind]

theorem check_input_ok {path : Option String} {resolved : Option String}
    {sfs : List SigMFFile}
    (hpath : ensure_path_has_correct_extension path = .ok resolved)
    (hsfs : ∀ sf ∈ sfs, check_sigmffile sf = .ok ()) :
    check_input path sfs = .ok resolved := by
  simp [check_input, hpath, check_files_ok hsfs, Bind.bind, Except.bind,
    pure, Except.pure]

/-! ## Pack-loop lemmas -/

theorem pack_loop_error_kind {fs : FS} {hdm hfm : Nat} :
    ∀ (sfs : List SigMFFile) (i : Nat) (evs : List Event) (e : Err),
      pack_loop fs hdm hfm i sfs = (evs, .error e) → e = .ioError := by
  intro sfs
  induction sfs with
  | nil => intro i evs e h; simp [pack_loop] at h
  | cons sf rest ih =>
    intro i evs e h
    simp only [pack_loop] at h
    cases hr : fsRead fs (sf.data_file.getD "") with
    | none =>
      rw [hr] at h
      have := congrArg Prod.snd h
      simpa using this.symm
    | some bytes =>
      rw [hr] at h
      rcases hl : pack_loop fs hdm hfm (i + 1) rest with ⟨evs', res'⟩
      rw [hl] at h
      cases res' with
      | error e' =>
        have he : e = e' := by
          have := congrArg Prod.snd h
          simpa using this.symm
        exact he ▸ ih (i + 1) evs' e' hl
      | ok es =>
        have := congrArg Prod.snd h
        simp at this

theorem pack_loop_balanced {fs : FS} {hdm hfm : Nat} :
    ∀ (sfs : List SigMFFile) (i : Nat) (evs : List Event) (es : List TarEntry),
      pack_loop fs hdm hfm i sfs = (evs, .ok es) →
      ∀ j, Event.mkdtemp j ∈ evs → Event.rmtree j ∈ evs := by
  intro sfs
  induction sfs with
  | nil =>
    intro i evs es h j hm
    simp only [pack_loop] at h
    have : evs = [] := (Prod.mk.injEq _ _ _ _ ▸ h).1.symm
    simp [this] at hm
  | cons sf rest ih =>
    intro i evs es h j hm
    simp only [pack_loop] at h
    cases hr : fsRead fs (sf.data_file.getD "") with
    | none =>
      rw [hr] at h
      have := congrArg Prod.snd h
      simp at this
    | some bytes =>
      rw [hr] at h
      rcases hl : pack_loop fs hdm hfm (i + 1) rest with ⟨evs', res'⟩
      rw [hl] at h
      cases res' with
      | error e' =>
        have := congrArg Prod.snd h
        simp at this
      | ok es' =>
        have hev : evs =
            [.mkdtemp i, .writeMeta i, .copyData i, .addEntries i, .rmtree i]
              ++ evs' :=
          ((Prod.mk.injEq _ _ _ _ ▸ h).1).symm
        subst hev
        simp only [List.mem_append, List.mem_cons, List.not_mem_nil] at hm ⊢
        rcases hm with hm | hm
        · rcases hm with h1 | h1 | h1 | h1 | h1 | h1 <;> first
            | (cases h1; exact Or.inl (by simp))
            | simp at h1
        · exact Or.inr (ih (i + 1) evs' es' hl j hm)

theorem pack_loop_modes {fs : FS} {hdm hfm : Nat} :
    ∀ (sfs : List SigMFFile) (i : Nat) (evs : List Event) (es : List TarEntry),
      pack_loop fs hdm hfm i sfs = (evs, .ok es) →
      ∀ e ∈ es, (e.kind = .dir → e.mode = 0o755) ∧ (e.kind = .file → e.mode = 0o644) := by
  intro sfs
  induction sfs with
  | nil =>
    intro i evs es h e he
    simp only [pack_loop] at h
    have : es = [] := by
      have := congrArg Prod.snd h
      simpa using this.symm
    simp [this] at he
  | cons sf rest ih =>
    intro i evs es h e he
    simp only [pack_loop] at h
    cases hr : fsRead fs (sf.data_file.getD "") with
    | none =>
      rw [hr] at h
      have := congrArg Prod.snd h
      simp at this
    | some bytes =>
      rw [hr] at h
      rcases hl : pack_loop fs hdm hfm (i + 1) rest with ⟨evs', res'⟩
      rw [hl] at h
      cases res' with
      | error e' =>
        have := congrArg Prod.snd h
        simp at this
      | ok es' =>
        have hes : es = add_recording sf bytes hdm hfm ++ es' := by
          have := congrArg Prod.snd h
          simpa using this.symm
        subst hes
        rcases List.mem_append.mp he with hm | hm
        · rw [add_recording_eq] at hm
          simp only [List.mem_cons, List.not_mem_nil, or_false] at hm
          rcases hm with rfl | rfl | rfl <;> constructor <;> intro hk <;>
            first | rfl | (cases hk)
        · exact ih (i + 1) evs' es' hl e hm

theorem pack_loop_of_archivable {fs : FS} {hdm hfm : Nat} :
    ∀ (sfs : List SigMFFile), (∀ sf ∈ sfs, archivable fs sf = true) →
      ∀ i, ∃ evs, pack_loop fs hdm hfm i sfs =
        (evs, .ok (packed_container fs hdm hfm sfs)) := by
  intro sfs
  induction sfs with
  | nil => intro _ i; exact ⟨[], rfl⟩
  | cons sf rest ih =>
    intro h i
    have hsf := h sf (List.mem_cons_self sf rest)
    have hread : fsRead fs (sf.data_file.getD "") = some (rec_bytes fs sf) := by
      simp only [archivable, Bool.and_eq_true] at hsf
      have := hsf.1.2
      rw [Option.isSome_iff_exists] at this
      obtain ⟨bs, hbs⟩ := this
      simp [rec_bytes, hbs]
    obtain ⟨evs', hl⟩ := ih (fun x hx => h x (List.mem_cons_of_mem sf hx)) (i + 1)
    refine ⟨[.mkdtemp i, .writeMeta i, .copyData i, .addEntries i, .rmtree i]
      ++ evs', ?_⟩
    simp only [pack_loop, hread, hl, packed_container]

/-! ## Packer-level inversion lemmas -/

theorem finish_path_ok_inv {p : String} {lr : List Event × Except Err (List TarEntry)}
    {tr : List Event} {r : PackResult}
    (h : finish_path p lr = (tr, .ok r)) :
    ∃ es, lr.2 = .ok es ∧ r = ⟨some p, es⟩
      ∧ tr = .openPathWrite p :: (lr.1 ++ [.closeArchive, .closeOutput]) := by
  rcases lr with ⟨evs, res⟩
  cases res with
  | error e => simp [finish_path] at h
  | ok es =>
    simp only [finish_path] at h
    injection h with h1 h2
    injection h2 with h2
    exact ⟨es, rfl, h2.symm, h1.symm⟩

theorem finish_sink_ok_inv {fo : Fileobj} {lr : List Event × Except Err (List TarEntry)}
    {tr : List Event} {r : PackResult}
    (h : finish_sink fo lr = (tr, .ok r)) :
    ∃ es, lr.2 = .ok es ∧ r = ⟨fo.name, fo.content.getD [] ++ es⟩
      ∧ tr = .probeSink :: (lr.1 ++ [.closeArchive, .seekStart]) := by
  rcases lr with ⟨evs, res⟩
  cases res with
  | error e => simp [finish_sink] at h
  | ok es =>
    simp only [finish_sink] at h
    injection h with h1 h2
    injection h2 with h2
    exact ⟨es, rfl, h2.symm, h1.symm⟩

theorem finish_path_error_inv {p : String} {lr : List Event × Except Err (List TarEntry)}
    {tr : List Event} {e : Err}
    (h : finish_path p lr = (tr, .error e)) :
    lr.2 = .error e := by
  rcases lr with ⟨evs, res⟩
  cases res with
  | error e' =>
    simp only [finish_path] at h
    injection h with _ h2
    injection h2 with h2
    rw [h2]
  | ok es => simp [finish_path] at h

theorem finish_sink_error_inv {fo : Fileobj} {lr : List Event × Except Err (List TarEntry)}
    {tr : List Event} {e : Err}
    (h : finish_sink fo lr = (tr, .error e)) :
    lr.2 = .error e := by
  rcases lr with ⟨evs, res⟩
  cases res with
  | error e' =>
    simp only [finish_sink] at h
    injection h with _ h2
    injection h2 with h2
    rw [h2]
  | ok es => simp [finish_sink] at h

theorem SigMFArchive_ok_inv {input : SigMFInput} {path : Option String}
    {fileobj : Option Fileobj} {fs : FS} {hdm hfm : Nat}
    {tr : List Event} {r : PackResult}
    (h : SigMFArchive input path fileobj fs hdm hfm = (tr, .ok r)) :
    ∃ evs es prior,
      pack_loop fs hdm hfm 0 (normalize_input input) = (evs, .ok es)
      ∧ r.entries = prior ++ es
      ∧ (fileobj = none → prior = [])
      ∧ (∀ fo2, fileobj = some fo2 → prior = fo2.content.getD [])
      ∧ (∀ j, Event.mkdtemp j ∈ tr → Event.mkdtemp j ∈ evs)
      ∧ (∀ j, Event.rmtree j ∈ evs → Event.rmtree j ∈ tr) := by
  simp only [SigMFArchive] at h
  cases hc : check_input path (normalize_input input) with
  | error e => rw [hc] at h; simp at h
  | ok resolved =>
    rw [hc] at h
    rcases hl : pack_loop fs hdm hfm 0 (normalize_input input) with ⟨evs, res⟩
    rw [hl] at h
    cases fileobj with
    | some fo =>
      dsimp only at h
      by_cases hw : (!fo.writable) = true
      · rw [if_pos hw] at h; simp at h
      · rw [if_neg hw] at h
        obtain ⟨es, hres, hr, htr⟩ := finish_sink_ok_inv h
        simp only at hres
        refine ⟨evs, es, fo.content.getD [], by rw [hres], by simp [hr],
          fun hx => Option.noConfusion hx,
          fun fo2 hx => by injection hx with hx; rw [hx], ?_, ?_⟩
        · intro j hj
          rw [htr] at hj
          simp only [List.mem_cons, List.mem_append] at hj
          rcases hj with hj | hj | hj
          · cases hj
          · exact hj
          · simp at hj
        · intro j hj
          rw [htr]
          simp [hj]
    | none =>
      cases resolved with
      | none => simp at h
      | some p =>
        dsimp only at h
        by_cases hu : fs.unwritable.contains p = true
        · simp only [hu, if_true] at h; simp at h
        · simp only [Bool.not_eq_true] at hu
          simp only [hu, Bool.false_eq_true, if_false] at h
          obtain ⟨es, hres, hr, htr⟩ := finish_path_ok_inv h
          simp only at hres
          refine ⟨evs, es, [], by rw [hres], by simp [hr], fun _ => rfl,
            fun fo2 hx => Option.noConfusion hx, ?_, ?_⟩
          · intro j hj
            rw [htr] at hj
            simp only [List.mem_cons, List.mem_append] at hj
            rcases hj with hj | hj | hj
            · cases hj
            · exact hj
            · simp at hj
          · intro j hj
            rw [htr]
            simp [hj]

theorem SigMFArchive_error_inv {input : SigMFInput} {path : Option String}
    {fileobj : Option Fileobj} {fs : FS} {hdm hfm : Nat}
    {tr : List Event} {e : Err}
    (h : SigMFArchive input path fileobj fs hdm hfm = (tr, .error e)) :
    tr = [] ∨ e = .ioError := by
  simp only [SigMFArchive] at h
  cases hc : check_input path (normalize_input input) with
  | error e2 =>
    rw [hc] at h
    dsimp only at h
    injection h with h1 _
    exact Or.inl h1.symm
  | ok resolved =>
    rw [hc] at h
    rcases hl : pack_loop fs hdm hfm 0 (normalize_input input) with ⟨evs, res⟩
    rw [hl] at h
    cases fileobj with
    | some fo =>
      dsimp only at h
      by_cases hw : (!fo.writable) = true
      · rw [if_pos hw] at h
        injection h with h1 _
        exact Or.inl h1.symm
      · rw [if_neg hw] at h
        have hres := finish_sink_error_inv h
        simp only at hres
        exact Or.inr (pack_loop_error_kind _ _ _ _ (by rw [hl, hres]))
    | none =>
      cases resolved with
      | none =>
        dsimp only at h
        injection h with h1 _
        exact Or.inl h1.symm
      | some p =>
        dsimp only at h
        by_cases hu : fs.unwritable.contains p = true
        · simp only [hu, if_true] at h
          injection h with h1 _
          exact Or.inl h1.symm
        · simp only [Bool.not_eq_true] at hu
          simp only [hu, Bool.false_eq_true, if_false] at h
          have hres := finish_path_error_inv h
          simp only at hres
          exact Or.inr (pack_loop_error_kind _ _ _ _ (by rw [hl, hres]))

/-- A successful pack to a fresh path: all handles archivable, path
resolution succeeded, resolved path writable. -/
theorem SigMFArchive_pack_ok {sfs : List SigMFFile} {fs : FS} {hdm hfm : Nat}
    {q r : String}
    (h1 : ∀ sf ∈ sfs, archivable fs sf = true)
    (hq : ensure_path_has_correct_extension (some q) = .ok (some r))
    (hw : fs.unwritable.contains r = false) :
    SigMFArchive (.many sfs) (some q) none fs hdm hfm
      = (Event.openPathWrite r ::
          ((pack_loop fs hdm hfm 0 sfs).1 ++ [.closeArchive, .closeOutput]),
        .ok ⟨some r, packed_container fs hdm hfm sfs⟩) := by
  have hcheck : check_input (some q) sfs = .ok (some r) :=
    check_input_ok hq (fun sf hsf => check_sigmffile_ok_of_archivable (h1 sf hsf))
  obtain ⟨evs, hl⟩ := @pack_loop_of_archivable fs hdm hfm sfs h1 0
  simp only [SigMFArchive, normalize_input, hcheck, hl, hw, Bool.false_eq_true,
    if_false, finish_path]

/-! ## Extractor-side lemmas -/

theorem strEndsWith_append3 (x y t : String) :
    strEndsWith (x ++ (y ++ t)) t = true := by
  rw [← String.append_assoc]
  exact strEndsWith_append _ _

/-- Scanning the members of a packed container reconstructs one recording
per handle, in order, provided all names are fit for the layout. -/
theorem scan_members_packed (fs : FS) (hdm hfm : Nat) (dir : String) :
    ∀ sfs : List SigMFFile, (∀ sf ∈ sfs, good_name sf = true) →
      scan_members dir (packed_container fs hdm hfm sfs) none none
        = .ok (extracted_records dir sfs) := by
  intro sfs
  induction sfs with
  | nil => intro _; rfl
  | cons sf rest ih =>
    intro h
    have hg := h sf (List.mem_cons_self sf rest)
    simp only [good_name, Bool.and_eq_true, Bool.not_eq_true'] at hg
    obtain ⟨⟨_, hnd⟩, hnm⟩ := hg
    have hM : strEndsWith (pathJoin sf.name (sf.name ++ SIGMF_METADATA_EXT))
        SIGMF_METADATA_EXT = true := strEndsWith_append3 _ _ _
    have hMD : strEndsWith (pathJoin sf.name (sf.name ++ SIGMF_METADATA_EXT))
        SIGMF_DATASET_EXT = false := ends_meta_not_data hM
    have hD : strEndsWith (pathJoin sf.name (sf.name ++ SIGMF_DATASET_EXT))
        SIGMF_DATASET_EXT = true := strEndsWith_append3 _ _ _
    have ihr := ih (fun x hx => h x (List.mem_cons_of_mem sf hx))
    simp [packed_container, add_recording, staged_entries, chmod_dir_mk,
      chmod_file_mk, scan_members, scan_classify, hnd, hnm, hMD, hM, hD,
      extractfile, jsonLoad, ihr, extracted_records]

/-- The member scan coincides with the spec's pairing description on any
member list whose metadata-suffixed members are regular files. -/
theorem scan_eq_spec (dir : String) :
    ∀ (entries : List TarEntry) (df : Option String) (md : Option Json),
      (∀ e ∈ entries, strEndsWith e.name SIGMF_METADATA_EXT = true →
        e.kind = .file) →
      scan_members dir entries df md = spec_pairing dir entries df md := by
  intro entries
  induction entries with
  | nil => intro df md _; rfl
  | cons m rest ih =>
    intro df md h
    have hrest : ∀ e ∈ rest, strEndsWith e.name SIGMF_METADATA_EXT = true →
        e.kind = .file := fun e he => h e (List.mem_cons_of_mem m he)
    by_cases hd : strEndsWith m.name SIGMF_DATASET_EXT = true
    · simp only [scan_members, scan_classify, spec_pairing, hd, if_true]
      cases md with
      | none => exact ih _ _ hrest
      | some j => rw [ih none none hrest]
    · simp only [Bool.not_eq_true] at hd
      by_cases hm : strEndsWith m.name SIGMF_METADATA_EXT = true
      · have hk : m.kind = .file := h m (List.mem_cons_self m rest) hm
        simp only [scan_members, scan_classify, spec_pairing, hd, hm,
          Bool.false_eq_true, if_false, if_true, extractfile, hk]
        cases hj : jsonLoad m.content with
        | none => rfl
        | some j =>
          cases df with
          | none => exact ih _ _ hrest
          | some d => rw [ih none none hrest]
      · simp only [Bool.not_eq_true] at hm
        simp only [scan_members, scan_classify, spec_pairing, hd, hm,
          Bool.false_eq_true, if_false]
        cases df with
        | none => exact ih _ _ hrest
        | some d =>
          cases md with
          | none => exact ih _ _ hrest
          | some j => rw [ih none none hrest]

/-- If some metadata-suffixed member holds bytes that do not parse as
JSON (and metadata-suffixed members are regular files), the scan fails
with the JSON decode error. -/
theorem scan_formatError (dir : String) :
    ∀ (entries : List TarEntry) (df : Option String) (md : Option Json),
      (∀ e ∈ entries, strEndsWith e.name SIGMF_METADATA_EXT = true →
        e.kind = .file) →
      (∃ e ∈ entries, strEndsWith e.name SIGMF_METADATA_EXT = true ∧
        jsonLoad e.content = none) →
      scan_members dir entries df md = .error .formatError := by
  intro entries
  induction entries with
  | nil => intro df md _ hbad; simp at hbad
  | cons m rest ih =>
    intro df md h hbad
    have hrest : ∀ e ∈ rest, strEndsWith e.name SIGMF_METADATA_EXT = true →
        e.kind = .file := fun e he => h e (List.mem_cons_of_mem m he)
    by_cases hd : strEndsWith m.name SIGMF_DATASET_EXT = true
    · have hbad' : ∃ e ∈ rest, strEndsWith e.name SIGMF_METADATA_EXT = true ∧
          jsonLoad e.content = none := by
        rcases hbad with ⟨e, he, hem, hej⟩
        rcases List.mem_cons.mp he with rfl | he'
        · rw [ends_data_not_meta hd] at hem
          cases hem
        · exact ⟨e, he', hem, hej⟩
      simp only [scan_members, scan_classify, hd, if_true]
      cases md with
      | none => exact ih _ _ hrest hbad'
      | some j => rw [ih none none hrest hbad']
    · simp only [Bool.not_eq_true] at hd
      by_cases hm : strEndsWith m.name SIGMF_METADATA_EXT = true
      · have hk : m.kind = .file := h m (List.mem_cons_self m rest) hm
        simp only [scan_members, scan_classify, hd, hm, Bool.false_eq_true,
          if_false, if_true, extractfile, hk]
        cases hj : jsonLoad m.content with
        | none => rfl
        | some j =>
          have hbad' : ∃ e ∈ rest, strEndsWith e.name SIGMF_METADATA_EXT = true ∧
              jsonLoad e.content = none := by
            rcases hbad with ⟨e, he, hem, hej⟩
            rcases List.mem_cons.mp he with rfl | he'
            · rw [hej] at hj
              cases hj
            · exact ⟨e, he', hem, hej⟩
          cases df with
          | none => exact ih _ _ hrest hbad'
          | some d => rw [ih none none hrest hbad']
      · simp only [Bool.not_eq_true] at hm
        have hbad' : ∃ e ∈ rest, strEndsWith e.name SIGMF_METADATA_EXT = true ∧
            jsonLoad e.content = none := by
          rcases hbad with ⟨e, he, hem, hej⟩
          rcases List.mem_cons.mp he with rfl | he'
          · rw [hm] at hem
            cases hem
          · exact ⟨e, he', hem, hej⟩
        simp only [scan_members, scan_classify, hd, hm, Bool.false_eq_true,
          if_false]
        cases df with
        | none => exact ih _ _ hrest hbad'
        | some d =>
          cases md with
          | none => exact ih _ _ hrest hbad'
          | some j => rw [ih none none hrest hbad']

/-! ## Extracted-filesystem lookup lemmas -/

theorem extractall_append (dir : String) (l1 l2 : List TarEntry) :
    extractall_fs dir (l1 ++ l2) = extractall_fs dir l1 ++ extractall_fs dir l2 := by
  simp [extractall_fs]

theorem extractall_block (dir : String) (sf : SigMFFile) (b : List Nat)
    (hdm hfm : Nat) :
    extractall_fs dir (add_recording sf b hdm hfm) =
      [ (pathJoin dir sf.name, .rawBytes []),
        (pathJoin dir (pathJoin sf.name (sf.name ++ SIGMF_METADATA_EXT)),
          .jsonText sf.metadata),
        (pathJoin dir (pathJoin sf.name (sf.name ++ SIGMF_DATASET_EXT)),
          .rawBytes b) ] := by
  rw [add_recording_eq]
  rfl

theorem fold_write_no_match {p : String} :
    ∀ (l : List (String × FileContent)) (acc : Option FileContent),
      (∀ q ∈ l, q.1 ≠ p) →
      l.foldl (fun acc q => if q.1 = p then some q.2 else acc) acc = acc := by
  intro l
  induction l with
  | nil => intro acc _; rfl
  | cons q rest ih =>
    intro acc h
    have hq : q.1 ≠ p := h q (List.mem_cons_self q rest)
    simp only [List.foldl_cons, if_neg hq]
    exact ih acc (fun x hx => h x (List.mem_cons_of_mem q hx))

theorem packed_entry_shape {fs : FS} {hdm hfm : Nat} :
    ∀ (sfs : List SigMFFile) (e : TarEntry),
      e ∈ packed_container fs hdm hfm sfs →
      ∃ y ∈ sfs, e.name = y.name
        ∨ e.name = pathJoin y.name (y.name ++ SIGMF_METADATA_EXT)
        ∨ e.name = pathJoin y.name (y.name ++ SIGMF_DATASET_EXT) := by
  intro sfs
  induction sfs with
  | nil => intro e he; simp [packed_container] at he
  | cons sf rest ih =>
    intro e he
    rw [packed_container] at he
    rcases List.mem_append.mp he with hm | hm
    · rw [add_recording_eq] at hm
      simp only [List.mem_cons, List.not_mem_nil, or_false] at hm
      rcases hm with rfl | rfl | rfl
      · exact ⟨sf, List.mem_cons_self sf rest, Or.inl rfl⟩
      · exact ⟨sf, List.mem_cons_self sf rest, Or.inr (Or.inl rfl)⟩
      · exact ⟨sf, List.mem_cons_self sf rest, Or.inr (Or.inr rfl)⟩
    · obtain ⟨y, hy, hc⟩ := ih e hm
      exact ⟨y, List.mem_cons_of_mem sf hy, hc⟩

theorem good_name_slashFree {sf : SigMFFile} (h : good_name sf = true) :
    strHasChar sf.name '/' = false := by
  simp only [good_name, Bool.and_eq_true, Bool.not_eq_true'] at h
  exact h.1.1

/-- No write of a packed container of handles whose names all differ from
`n` touches the dataset path of `n`. -/
theorem packed_path_ne_target {fs : FS} {hdm hfm : Nat} {dir n : String}
    (sfs : List SigMFFile)
    (hgood : ∀ y ∈ sfs, good_name y = true)
    (hne : ∀ y ∈ sfs, y.name ≠ n)
    (hn : strHasChar n '/' = false) :
    ∀ q ∈ extractall_fs dir (packed_container fs hdm hfm sfs),
      q.1 ≠ pathJoin dir (pathJoin n (n ++ SIGMF_DATASET_EXT)) := by
  intro q hq
  simp only [extractall_fs, List.mem_map] at hq
  obtain ⟨e, he, rfl⟩ := hq
  intro hcontra
  have hname : e.name = pathJoin n (n ++ SIGMF_DATASET_EXT) := pathJoin_inj hcontra
  obtain ⟨y, hy, hc⟩ := packed_entry_shape sfs e he
  have hys : strHasChar y.name '/' = false := good_name_slashFree (hgood y hy)
  rcases hc with hc | hc | hc
  · exact bare_ne_joined hys (hc.symm.trans hname)
  · exact meta_path_ne_data_path hys hn (hc.symm.trans hname)
  · exact hne y hy (data_path_inj hys hn (hc.symm.trans hname))

/-- In the filesystem materialized from a packed container of distinct,
layout-fit names, each handle's dataset path holds exactly its dataset
bytes. -/
theorem lookup_packed_dataset {fs : FS} {hdm hfm : Nat} {dir : String} :
    ∀ (sfs : List SigMFFile),
      (∀ y ∈ sfs, good_name y = true) →
      (sfs.map SigMFFile.name).Nodup →
      ∀ sf ∈ sfs,
        fs_last_lookup (extractall_fs dir (packed_container fs hdm hfm sfs))
          (pathJoin dir (pathJoin sf.name (sf.name ++ SIGMF_DATASET_EXT)))
          = some (.rawBytes (rec_bytes fs sf)) := by
  intro sfs
  induction sfs with
  | nil => intro _ _ sf h; simp at h
  | cons x rest ih =>
    intro hgood hnodup sf hsf
    have hgx : good_name x = true := hgood x (List.mem_cons_self x rest)
    have hxs : strHasChar x.name '/' = false := good_name_slashFree hgx
    have hgrest : ∀ y ∈ rest, good_name y = true :=
      fun y hy => hgood y (List.mem_cons_of_mem x hy)
    have hnodup' : (rest.map SigMFFile.name).Nodup :=
      (List.nodup_cons.mp (by simpa using hnodup)).2
    have hxnotin : x.name ∉ rest.map SigMFFile.name :=
      (List.nodup_cons.mp (by simpa using hnodup)).1
    rw [packed_container, extractall_append, extractall_block]
    unfold fs_last_lookup
    rw [List.foldl_append]
    rcases List.mem_cons.mp hsf with rfl | hsf'
    · have hs : strHasChar sf.name '/' = false := hxs
      have h1 : pathJoin dir sf.name
          ≠ pathJoin dir (pathJoin sf.name (sf.name ++ SIGMF_DATASET_EXT)) :=
        fun hc => bare_ne_joined hs (pathJoin_inj hc)
      have h2 : pathJoin dir (pathJoin sf.name (sf.name ++ SIGMF_METADATA_EXT))
          ≠ pathJoin dir (pathJoin sf.name (sf.name ++ SIGMF_DATASET_EXT)) :=
        fun hc => meta_path_ne_data_path hs hs (pathJoin_inj hc)
      simp only [List.foldl_cons, List.foldl_nil, if_neg h1, if_neg h2, if_pos rfl]
      have hne : ∀ y ∈ rest, y.name ≠ sf.name := by
        intro y hy hc
        exact hxnotin (hc ▸ List.mem_map_of_mem SigMFFile.name hy)
      exact fold_write_no_match _ _
        (packed_path_ne_target rest hgrest hne hs)
    · have hs : strHasChar sf.name '/' = false :=
        good_name_slashFree (hgrest sf hsf')
      have hxn : x.name ≠ sf.name := by
        intro hc
        exact hxnotin (hc ▸ List.mem_map_of_mem SigMFFile.name hsf')
      have h1 : pathJoin dir x.name
          ≠ pathJoin dir (pathJoin sf.name (sf.name ++ SIGMF_DATASET_EXT)) :=
        fun hc => bare_ne_joined hxs (pathJoin_inj hc)
      have h2 : pathJoin dir (pathJoin x.name (x.name ++ SIGMF_METADATA_EXT))
          ≠ pathJoin dir (pathJoin sf.name (sf.name ++ SIGMF_DATASET_EXT)) :=
        fun hc => meta_path_ne_data_path hxs hs (pathJoin_inj hc)
      have h3 : pathJoin dir (pathJoin x.name (x.name ++ SIGMF_DATASET_EXT))
          ≠ pathJoin dir (pathJoin sf.name (sf.name ++ SIGMF_DATASET_EXT)) :=
        fun hc => hxn (data_path_inj hxs hs (pathJoin_inj hc))
      simp only [List.foldl_cons, List.foldl_nil, if_neg h1, if_neg h2, if_neg h3]
      exact ih hgrest hnodup' sf hsf'

/-- Extracting a packed container (non-truncated, to a non-empty
directory) succeeds with one recording per handle, in order. -/
theorem extract_packed {fs : FS} {hdm hfm : Nat} {dir : String}
    {sfs : List SigMFFile}
    (hgood : ∀ y ∈ sfs, good_name y = true) (hdir : dir ≠ "") :
    extract (.tar (packed_container fs hdm hfm sfs) false) (some dir)
      = ([.openRead, .extractAll dir, .closeRead],
        .ok (extracted_records dir sfs)) := by
  have hs := scan_members_packed fs hdm hfm dir sfs hgood
  have hrd : resolve_dir (some dir) = dir := by simp [resolve_dir, hdir]
  simp [extract, hrd, hs]

/-! ## Remaining helper lemmas for the claims -/

theorem ends_implies_dot {p : String}
    (h : strEndsWith p SIGMF_ARCHIVE_EXT = true) : strHasChar p '.' = true := by
  simp only [strEndsWith, List.isSuffixOf_iff_suffix] at h
  obtain ⟨t, ht⟩ := h
  apply strHasChar_iff.mpr
  rw [← ht]
  exact List.mem_append.mpr (Or.inr (by decide))

/-- A destination path with a dot but the wrong suffix makes the whole
pack fail during `_check_input`, before any event. -/
theorem pack_bad_suffix {p : String}
    (hdot : strHasChar p '.' = true)
    (hend : strEndsWith p SIGMF_ARCHIVE_EXT = false)
    (input : SigMFInput) (fileobj : Option Fileobj) (fs : FS) (hdm hfm : Nat) :
    SigMFArchive input (some p) fileobj fs hdm hfm = ([], .error .fileError) := by
  have he : ensure_path_has_correct_extension (some p) = .error .fileError := by
    simp [ensure_path_has_correct_extension, hdot, hend]
  have hci : check_input (some p) (normalize_input input) = .error .fileError := by
    simp [check_input, he, Bind.bind, Except.bind]
  simp [SigMFArchive, hci]

/-- Extraction of a non-truncated tar always emits the closing event,
whatever the scan produced. -/
theorem extract_closes (entries : List TarEntry) (dirArg : Option String) :
    (extract (.tar entries false) dirArg).1
      = [.openRead, .extractAll (resolve_dir dirArg), .closeRead] := by
  simp only [extract]
  cases scan_members (resolve_dir dirArg) entries none none <;> rfl

/-! ## The claims -/

/-- C1, counterexample: the round-trip claim quantifies over every valid
set of recordings (non-empty name, set data file, valid metadata), but it
fails when two recordings share a name.  Here two archivable handles both
named "a" with dataset bytes `[0]` and `[1]` pack successfully; extraction
returns two handles, in order, whose dataset paths coincide
(`out/a/a.sigmf-data`), and after `extractall` that path holds the second
recording's bytes `[1]`, not the first recording's bytes `[0]` — so the
first extracted recording does not have the same dataset bytes as its
original. -/
theorem c1_counterexample :
    (∀ sf ∈ c1ex_sfs, archivable c1ex_fs sf = true)
    ∧ SigMFArchive (.many c1ex_sfs) (some "x") none c1ex_fs 7 6
      = ([.openPathWrite "x.sigmf", .mkdtemp 0, .writeMeta 0, .copyData 0,
          .addEntries 0, .rmtree 0, .mkdtemp 1, .writeMeta 1, .copyData 1,
          .addEntries 1, .rmtree 1, .closeArchive, .closeOutput],
        .ok ⟨some "x.sigmf", c1ex_entries⟩)
    ∧ (extract (.tar c1ex_entries false) (some "out")).2
      = .ok [⟨[("k", 1)], "out/a/a.sigmf-data"⟩,
             ⟨[("k", 2)], "out/a/a.sigmf-data"⟩]
    ∧ fs_last_lookup (extractall_fs "out" c1ex_entries) "out/a/a.sigmf-data"
      = some (.rawBytes [1])
    ∧ rec_bytes c1ex_fs ⟨"a", [("k", 1)], some "d1", true⟩ = [0]
    ∧ some (FileContent.rawBytes [1]) ≠ some (FileContent.rawBytes ([0] : List Nat)) :=
  ⟨by decide, rfl, rfl, rfl, rfl, by decide⟩

/-- C1 (amended): packing a valid set of recordings into a fresh path
destination and extracting the resulting container yields one recording
handle per input handle, in order, with the same parsed metadata
document, a dataset path lying under the directory named after the
handle (same names), and that path holding the handle's dataset bytes —
provided additionally that the recordings' names are pairwise distinct
and fit for the container layout (no path separator, not themselves
ending in a reserved member suffix); with duplicate names the dataset
paths collide and the property fails (see the counterexample). -/
theorem c1_roundtrip_amended (sfs : List SigMFFile) (fs : FS) (hdm hfm : Nat)
    (q r dir : String)
    (h1 : ∀ sf ∈ sfs, archivable fs sf = true)
    (h2 : ∀ sf ∈ sfs, good_name sf = true)
    (h3 : (sfs.map SigMFFile.name).Nodup)
    (hq : ensure_path_has_correct_extension (some q) = .ok (some r))
    (hw : fs.unwritable.contains r = false)
    (hdir : dir ≠ "") :
    (SigMFArchive (.many sfs) (some q) none fs hdm hfm).2
        = .ok ⟨some r, packed_container fs hdm hfm sfs⟩
    ∧ (extract (.tar (packed_container fs hdm hfm sfs) false) (some dir)).2
        = .ok (extracted_records dir sfs)
    ∧ extracted_records dir sfs
        = sfs.map (fun sf => ⟨sf.metadata,
            pathJoin dir (pathJoin sf.name (sf.name ++ SIGMF_DATASET_EXT))⟩)
    ∧ ∀ sf ∈ sfs,
        fs_last_lookup (extractall_fs dir (packed_container fs hdm hfm sfs))
          (pathJoin dir (pathJoin sf.name (sf.name ++ SIGMF_DATASET_EXT)))
          = some (.rawBytes (rec_bytes fs sf)) := by
  refine ⟨?_, ?_, rfl, ?_⟩
  · rw [SigMFArchive_pack_ok h1 hq hw]
  · rw [extract_packed h2 hdir]
  · exact lookup_packed_dataset sfs h2 h3

/-- C1, witness: the amended round trip at two concrete recordings
"a" and "b". -/
theorem c1_roundtrip_witness :
    (SigMFArchive
        (.many [⟨"a", [("k", 1)], some "d1", true⟩,
                ⟨"b", [("k", 2)], some "d2", true⟩])
        (some "x") none ⟨[("d1", [0, 1]), ("d2", [2, 3])], []⟩ 7 6).2
      = .ok ⟨some "x.sigmf",
          packed_container ⟨[("d1", [0, 1]), ("d2", [2, 3])], []⟩ 7 6
            [⟨"a", [("k", 1)], some "d1", true⟩,
             ⟨"b", [("k", 2)], some "d2", true⟩]⟩
    ∧ (extract (.tar (packed_container ⟨[("d1", [0, 1]), ("d2", [2, 3])], []⟩ 7 6
          [⟨"a", [("k", 1)], some "d1", true⟩,
           ⟨"b", [("k", 2)], some "d2", true⟩]) false) (some "out")).2
      = .ok (extracted_records "out"
          [⟨"a", [("k", 1)], some "d1", true⟩,
           ⟨"b", [("k", 2)], some "d2", true⟩])
    ∧ extracted_records "out"
          [⟨"a", [("k", 1)], some "d1", true⟩,
           ⟨"b", [("k", 2)], some "d2", true⟩]
      = ([⟨"a", [("k", 1)], some "d1", true⟩,
          ⟨"b", [("k", 2)], some "d2", true⟩] : List SigMFFile).map (fun sf =>
          ⟨sf.metadata,
            pathJoin "out" (pathJoin sf.name (sf.name ++ SIGMF_DATASET_EXT))⟩)
    ∧ ∀ sf ∈ ([⟨"a", [("k", 1)], some "d1", true⟩,
              ⟨"b", [("k", 2)], some "d2", true⟩] : List SigMFFile),
        fs_last_lookup
          (extractall_fs "out"
            (packed_container ⟨[("d1", [0, 1]), ("d2", [2, 3])], []⟩ 7 6
              [⟨"a", [("k", 1)], some "d1", true⟩,
               ⟨"b", [("k", 2)], some "d2", true⟩]))
          (pathJoin "out" (pathJoin sf.name (sf.name ++ SIGMF_DATASET_EXT)))
          = some (.rawBytes (rec_bytes ⟨[("d1", [0, 1]), ("d2", [2, 3])], []⟩ sf)) :=
  c1_roundtrip_amended
    [⟨"a", [("k", 1)], some "d1", true⟩, ⟨"b", [("k", 2)], some "d2", true⟩]
    ⟨[("d1", [0, 1]), ("d2", [2, 3])], []⟩ 7 6 "x" "x.sigmf" "out"
    (by decide) (by decide) (by decide) rfl (by decide) (by decide)

/-- C2: the member loop of `extract` re-associates entries exactly as the
spec's scan describes — tracking the current data file and current
metadata in encounter order, pairing whenever both are set, resetting the
trackers — on every container whose metadata-suffixed members are regular
files; and the pairing is by encounter order only, never by directory
name: a metadata member under directory "a" followed by a dataset member
under directory "b" is paired into one recording. -/
theorem c2_pairing :
    (∀ (dir : String) (entries : List TarEntry) (df : Option String)
        (md : Option Json),
      (∀ e ∈ entries, strEndsWith e.name SIGMF_METADATA_EXT = true →
        e.kind = .file) →
      scan_members dir entries df md = spec_pairing dir entries df md)
    ∧ scan_members "out"
        [⟨"a/x.sigmf-meta", .file, 0o644, .jsonText [("k", 5)]⟩,
         ⟨"b/y.sigmf-data", .file, 0o644, .rawBytes [9]⟩] none none
      = .ok [⟨[("k", 5)], "out/b/y.sigmf-data"⟩] :=
  ⟨fun dir entries df md h => scan_eq_spec dir entries df md h, rfl⟩

/-- C2, witness: the scan and the spec pairing agree on a concrete
container. -/
theorem c2_pairing_witness :
    scan_members "d"
        [⟨"a/x.sigmf-meta", .file, 0o644, .jsonText [("k", 1)]⟩,
         ⟨"a/x.sigmf-data", .file, 0o644, .rawBytes [7]⟩] none none
      = spec_pairing "d"
        [⟨"a/x.sigmf-meta", .file, 0o644, .jsonText [("k", 1)]⟩,
         ⟨"a/x.sigmf-data", .file, 0o644, .rawBytes [7]⟩] none none :=
  c2_pairing.1 "d" _ none none (by decide)

/-- C3: with a passing destination path, the first handle that fails a
pre-flight check aborts the whole pack with the corresponding error —
`FileError` for an unset name, `FileError` for an unset data file,
`ValidationError` for failing `validate()` — and the event trace is
empty: nothing was written, the destination was never even opened, for
any later handles and any destination. -/
theorem c3_preflight (pre post : List SigMFFile) (sf : SigMFFile)
    (path resolved : Option String) (fileobj : Option Fileobj) (fs : FS)
    (hdm hfm : Nat) (e : Err)
    (hpath : ensure_path_has_correct_extension path = .ok resolved)
    (hpre : ∀ x ∈ pre, check_sigmffile x = .ok ())
    (hsf : (sf.name = "" ∧ e = .fileError)
         ∨ (sf.name ≠ "" ∧ falsyStr sf.data_file = true ∧ e = .fileError)
         ∨ (sf.name ≠ "" ∧ falsyStr sf.data_file = false ∧ sf.valid = false
             ∧ e = .validationError)) :
    SigMFArchive (.many (pre ++ sf :: post)) path fileobj fs hdm hfm
      = ([], .error e) := by
  have hsf2 : check_sigmffile sf = .error e := by
    rcases hsf with ⟨h1, rfl⟩ | ⟨h1, h2, rfl⟩ | ⟨h1, h2, h3, rfl⟩
    · simp [check_sigmffile, ensure_sigmffile_name_set, h1, Bind.bind,
        Except.bind]
    · simp [check_sigmffile, ensure_sigmffile_name_set,
        ensure_sigmffile_data_file_set, h1, h2, Bind.bind, Except.bind]
    · simp [check_sigmffile, ensure_sigmffile_name_set,
        ensure_sigmffile_data_file_set, validate_sigmffile_metadata, h1, h2, h3,
        Bind.bind, Except.bind]
  have hcf := @check_files_error pre post sf e hpre hsf2
  have hci : check_input path (pre ++ sf :: post) = .error e := by
    simp [check_input, hpath, hcf, Bind.bind, Except.bind]
  simp [SigMFArchive, normalize_input, hci]

/-- C3, witness: a good handle followed by a handle with unset data file
aborts with `FileError` and an empty trace, with a third handle
pending. -/
theorem c3_preflight_witness :
    SigMFArchive
      (.many ([⟨"g", [("k", 1)], some "d", true⟩] ++
        ⟨"h", [("k", 2)], none, true⟩ :: [⟨"z", [("k", 3)], some "d2", false⟩]))
      none none ⟨[], []⟩ 0 0 = ([], .error .fileError) :=
  c3_preflight [⟨"g", [("k", 1)], some "d", true⟩]
    [⟨"z", [("k", 3)], some "d2", false⟩] ⟨"h", [("k", 2)], none, true⟩
    none none none ⟨[], []⟩ 0 0 .fileError rfl
    (by intro x hx; rcases List.mem_singleton.mp hx with rfl; rfl)
    (Or.inr (Or.inl ⟨by decide, by decide, rfl⟩))

/-- C4: destination-path suffix handling — a path with no suffix (no dot)
gets `.sigmf` appended; a path already ending in `.sigmf` is used
unchanged; a path with a dot but a different suffix makes the whole pack
fail with `FileError` (empty trace), not a silent correction. -/
theorem c4_suffix_enforcement (p : String) :
    (strHasChar p '.' = false →
      ensure_path_has_correct_extension (some p)
        = .ok (some (p ++ SIGMF_ARCHIVE_EXT)))
    ∧ (strEndsWith p SIGMF_ARCHIVE_EXT = true →
      ensure_path_has_correct_extension (some p) = .ok (some p))
    ∧ (strHasChar p '.' = true → strEndsWith p SIGMF_ARCHIVE_EXT = false →
      ∀ (input : SigMFInput) (fileobj : Option Fileobj) (fs : FS)
        (hdm hfm : Nat),
        SigMFArchive input (some p) fileobj fs hdm hfm
          = ([], .error .fileError)) := by
  refine ⟨?_, ?_, ?_⟩
  · intro h
    have hne : strEndsWith p SIGMF_ARCHIVE_EXT = false := by
      cases he : strEndsWith p SIGMF_ARCHIVE_EXT with
      | false => rfl
      | true => rw [ends_implies_dot he] at h; cases h
    simp [ensure_path_has_correct_extension, h, hne]
  · intro h
    simp [ensure_path_has_correct_extension, h]
  · intro hdot hend input fileobj fs hdm hfm
    exact pack_bad_suffix hdot hend input fileobj fs hdm hfm

/-- C4, witness: `pack(R, "x")` resolves to `"x.sigmf"`, `"x.sigmf"` is
unchanged, `"x.zip"` fails with `FileError`. -/
theorem c4_suffix_witness :
    ensure_path_has_correct_extension (some "x")
      = .ok (some ("x" ++ SIGMF_ARCHIVE_EXT))
    ∧ ensure_path_has_correct_extension (some "x.sigmf") = .ok (some "x.sigmf")
    ∧ SigMFArchive (.many []) (some "x.zip") none ⟨[], []⟩ 0 0
      = ([], .error .fileError) :=
  ⟨(c4_suffix_enforcement "x").1 (by decide),
   (c4_suffix_enforcement "x.sigmf").2.1 (by decide),
   (c4_suffix_enforcement "x.zip").2.2 (by decide) (by decide) (.many [])
     none ⟨[], []⟩ 0 0⟩

/-- C5: every container a successful pack produces on a fresh path
destination has mode `0o755` on every directory member and `0o644` on
every file member, whatever modes the host (umask) gave the staged files;
and packing into a sink leaves every member either carried over from the
sink's prior content or with those fixed modes. -/
theorem c5_permissions :
    (∀ (input : SigMFInput) (path : Option String) (fs : FS) (hdm hfm : Nat)
        (tr : List Event) (r : PackResult),
      SigMFArchive input path none fs hdm hfm = (tr, .ok r) →
      ∀ e ∈ r.entries, (e.kind = .dir → e.mode = 0o755)
        ∧ (e.kind = .file → e.mode = 0o644))
    ∧ (∀ (input : SigMFInput) (path : Option String) (fo : Fileobj) (fs : FS)
        (hdm hfm : Nat) (tr : List Event) (r : PackResult),
      SigMFArchive input path (some fo) fs hdm hfm = (tr, .ok r) →
      ∀ e ∈ r.entries, e ∈ fo.content.getD []
        ∨ ((e.kind = .dir → e.mode = 0o755)
            ∧ (e.kind = .file → e.mode = 0o644))) := by
  constructor
  · intro input path fs hdm hfm tr r h e he
    obtain ⟨evs, es, prior, hl, hent, hpr, _, _, _⟩ := SigMFArchive_ok_inv h
    rw [hent, hpr rfl, List.nil_append] at he
    exact pack_loop_modes _ _ _ _ hl e he
  · intro input path fo fs hdm hfm tr r h e he
    obtain ⟨evs, es, prior, hl, hent, _, hps, _, _⟩ := SigMFArchive_ok_inv h
    rw [hent, hps fo rfl] at he
    rcases List.mem_append.mp he with hm | hm
    · exact Or.inl hm
    · exact Or.inr (pack_loop_modes _ _ _ _ hl e hm)

/-- C5, witness: a concrete pack with host modes `9` produces members
with modes `0o755`/`0o644` only. -/
theorem c5_permissions_witness :
    ∀ e ∈ [(⟨"a", .dir, 0o755, .rawBytes []⟩ : TarEntry),
           ⟨"a/a.sigmf-meta", .file, 0o644, .jsonText [("k", 1)]⟩,
           ⟨"a/a.sigmf-data", .file, 0o644, .rawBytes [0]⟩],
      (e.kind = .dir → e.mode = 0o755) ∧ (e.kind = .file → e.mode = 0o644) :=
  c5_permissions.1 (.many [⟨"a", [("k", 1)], some "d1", true⟩]) (some "x")
    ⟨[("d1", [0])], []⟩ 9 9
    [.openPathWrite "x.sigmf", .mkdtemp 0, .writeMeta 0, .copyData 0,
     .addEntries 0, .rmtree 0, .closeArchive, .closeOutput]
    ⟨some "x.sigmf",
      [⟨"a", .dir, 0o755, .rawBytes []⟩,
       ⟨"a/a.sigmf-meta", .file, 0o644, .jsonText [("k", 1)]⟩,
       ⟨"a/a.sigmf-data", .file, 0o644, .rawBytes [0]⟩]⟩ rfl

/-- C6: a container with a metadata-suffixed member whose bytes do not
parse as JSON (all metadata-suffixed members being regular files) makes
`extract` fail with the JSON decode error — no recording list is
returned at all, so in particular no partially-populated handle. -/
theorem c6_malformed_metadata (entries : List TarEntry) (dirArg : Option String)
    (hfiles : ∀ e ∈ entries, strEndsWith e.name SIGMF_METADATA_EXT = true →
      e.kind = .file)
    (hbad : ∃ e ∈ entries, strEndsWith e.name SIGMF_METADATA_EXT = true ∧
      jsonLoad e.content = none) :
    (extract (.tar entries false) dirArg).2 = .error .formatError := by
  have hs := scan_formatError (resolve_dir dirArg) entries none none hfiles hbad
  simp [extract, hs]

/-- C6, witness: a single malformed metadata member fails extraction with
the decode error. -/
theorem c6_malformed_witness :
    (extract (.tar [⟨"a/a.sigmf-meta", .file, 0o644, .rawBytes [1]⟩] false)
      (some "out")).2 = .error .formatError :=
  c6_malformed_metadata [⟨"a/a.sigmf-meta", .file, 0o644, .rawBytes [1]⟩]
    (some "out") (by decide) (by decide)

/-- C7, counterexample: the claim promises the staging directory is
removed on every exit path including an I/O failure during the copy, but
here a handle that passes every pre-flight check names a dataset file
absent from the host filesystem: `shutil.copy` fails after `mkdtemp`, the
error propagates, and no `rmtree` ever happens — the staging directory is
leaked. -/
theorem c7_counterexample :
    check_sigmffile ⟨"a", [("k", 1)], some "missing", true⟩ = .ok ()
    ∧ SigMFArchive (.many [⟨"a", [("k", 1)], some "missing", true⟩]) (some "x")
        none ⟨[], []⟩ 7 6
      = ([.openPathWrite "x.sigmf", .mkdtemp 0, .writeMeta 0], .error .ioError)
    ∧ Event.mkdtemp 0 ∈ ([.openPathWrite "x.sigmf", .mkdtemp 0, .writeMeta 0] :
        List Event)
    ∧ Event.rmtree 0 ∉ ([.openPathWrite "x.sigmf", .mkdtemp 0, .writeMeta 0] :
        List Event) :=
  ⟨rfl, rfl, by decide, by decide⟩

/-- C7 (amended): on a successful pack every staging directory created is
also removed, and on a pre-flight failure (`FileError` or
`ValidationError`) the trace is empty, so no staging directory was ever
created; but on an I/O failure during dump/copy/add the in-flight staging
directory is not removed (see the counterexample) — the source has no
try/finally around the staging block. -/
theorem c7_staging_amended :
    (∀ (input : SigMFInput) (path : Option String) (fileobj : Option Fileobj)
        (fs : FS) (hdm hfm : Nat) (tr : List Event) (r : PackResult),
      SigMFArchive input path fileobj fs hdm hfm = (tr, .ok r) →
      ∀ i, Event.mkdtemp i ∈ tr → Event.rmtree i ∈ tr)
    ∧ (∀ (input : SigMFInput) (path : Option String) (fileobj : Option Fileobj)
        (fs : FS) (hdm hfm : Nat) (tr : List Event) (e : Err),
      SigMFArchive input path fileobj fs hdm hfm = (tr, .error e) →
      e = .fileError ∨ e = .validationError → tr = []) := by
  constructor
  · intro input path fileobj fs hdm hfm tr r h i hm
    obtain ⟨evs, es, prior, hl, _, _, _, hmk, hrm⟩ := SigMFArchive_ok_inv h
    exact hrm i (pack_loop_balanced _ _ _ _ hl i (hmk i hm))
  · intro input path fileobj fs hdm hfm tr e h he
    rcases SigMFArchive_error_inv h with h0 | h0
    · exact h0
    · rcases he with rfl | rfl <;> simp at h0

/-- C7, witness: the amended cleanup facts at concrete packs — a
successful one whose trace removes the staging directory it created, and
a validation-failing one with an empty trace. -/
theorem c7_staging_witness :
    Event.rmtree 0 ∈ ([.openPathWrite "x.sigmf", .mkdtemp 0, .writeMeta 0,
      .copyData 0, .addEntries 0, .rmtree 0, .closeArchive, .closeOutput] :
        List Event)
    ∧ ([] : List Event) = [] :=
  ⟨c7_staging_amended.1 (.many [⟨"a", [("k", 1)], some "d1", true⟩]) (some "x")
      none ⟨[("d1", [0])], []⟩ 9 9
      [.openPathWrite "x.sigmf", .mkdtemp 0, .writeMeta 0, .copyData 0,
       .addEntries 0, .rmtree 0, .closeArchive, .closeOutput]
      ⟨some "x.sigmf",
        [⟨"a", .dir, 0o755, .rawBytes []⟩,
         ⟨"a/a.sigmf-meta", .file, 0o644, .jsonText [("k", 1)]⟩,
         ⟨"a/a.sigmf-data", .file, 0o644, .rawBytes [0]⟩]⟩ rfl 0 (by decide),
   c7_staging_amended.2 (.many [⟨"", [], none, true⟩]) none none ⟨[], []⟩ 0 0
     [] .fileError rfl (Or.inl rfl)⟩

/-- C8, counterexample: the claim promises the container handle is closed
on every error after opening, including entry enumeration; but
`getmembers()` runs outside the try/finally, so a tar that opens but
fails enumeration (truncated) leaves the handle open: the trace contains
the open event and no close event. -/
theorem c8_counterexample :
    extract (.tar [] true) (some "out") = ([.openRead], .error .readError)
    ∧ Event.openRead ∈ ([.openRead] : List Event)
    ∧ Event.closeRead ∉ ([.openRead] : List Event) :=
  ⟨rfl, by decide, by decide⟩

/-- C8 (amended): the container handle is closed on exit whenever entry
enumeration succeeded — on success and on any error raised inside the
try block (extraction to disk, metadata parsing) the close event is in
the trace; but an error during entry enumeration (`getmembers`, which
runs before the try block) leaves the handle unclosed, and a file that
fails to open as a tar never acquires a handle. -/
theorem c8_close_amended :
    (∀ (entries : List TarEntry) (dirArg : Option String),
      Event.closeRead ∈ (extract (.tar entries false) dirArg).1)
    ∧ (∀ (entries : List TarEntry) (dirArg : Option String),
      Event.closeRead ∉ (extract (.tar entries true) dirArg).1)
    ∧ (∀ dirArg, extract .notATar dirArg = ([], .error .readError)) := by
  refine ⟨?_, ?_, fun dirArg => rfl⟩
  · intro entries dirArg
    rw [extract_closes]
    simp
  · intro entries dirArg
    have h : (extract (.tar entries true) dirArg).1 = [.openRead] := rfl
    rw [h]
    simp

/-- C9: when both a byte sink and a path are supplied, the path is still
suffix-checked before anything touches the sink: a path with a dot and
the wrong suffix fails the whole pack with `FileError` and an empty
trace, even though the sink takes precedence and the path would never be
opened. -/
theorem c9_sink_path_checked (input : SigMFInput) (fo : Fileobj) (fs : FS)
    (hdm hfm : Nat) (p : String)
    (hdot : strHasChar p '.' = true)
    (hend : strEndsWith p SIGMF_ARCHIVE_EXT = false) :
    SigMFArchive input (some p) (some fo) fs hdm hfm = ([], .error .fileError) :=
  pack_bad_suffix hdot hend input (some fo) fs hdm hfm

/-- C9, witness: path "x.zip" with a writable sink fails before any
event. -/
theorem c9_sink_path_witness :
    SigMFArchive (.many [⟨"a", [("k", 1)], some "d", true⟩]) (some "x.zip")
      (some ⟨none, some [], true⟩) ⟨[("d", [0])], []⟩ 0 0
      = ([], .error .fileError) :=
  c9_sink_path_checked (.many [⟨"a", [("k", 1)], some "d", true⟩])
    ⟨none, some [], true⟩ ⟨[("d", [0])], []⟩ 0 0 "x.zip" (by decide) (by decide)

/-- C10: a single non-iterable handle passed as the `sigmffiles` argument
is wrapped into a one-element list, so packing it behaves exactly like
packing the one-element sequence containing it, for every destination,
filesystem and host mode. -/
theorem c10_single_wrapped (sf : SigMFFile) (path : Option String)
    (fileobj : Option Fileobj) (fs : FS) (hdm hfm : Nat) :
    SigMFArchive (.single sf) path fileobj fs hdm hfm
      = SigMFArchive (.many [sf]) path fileobj fs hdm hfm := rfl

end SigMF
